import Mathlib

/-!
Shallow embedding of `src/osu/scores.rs` from `rosu-scores-ws`.

Bytes are modelled as `List Nat` (each element a byte value). The Rust
`Deserializer` walks the buffer with an index; we pass the buffer and the
index explicitly. Rust panics (out-of-bounds slice indexing, `unreachable!`)
are modelled by the distinguished outcome `DeResult.crash`; fallible steps
return explicit error values mirroring the `eyre` error messages.
-/

namespace RosuScores

/-- Errors produced by `skip_whitespace_until` in the source:
`Unexpected character` when a non-space byte fails the predicate, and
the wrapped `try_fold ... break_value ... context` error when the input
is exhausted before the predicate is met. -/
inductive SkipErr where
  | unexpectedChar (b : Nat)
  | neverMet
deriving DecidableEq, Repr

/-- Error values of the deserializer, one per `bail!`/`context` site in the
source (`Missing scores`, the opening-bracket skip failure, `Expected opening
brace or closing bracket`, `Failed to peek u64`, `Missing id within bytes ...`,
`Expected comma or closing bracket`). -/
inductive DeError where
  | missingScores
  | skipErr (e : SkipErr)
  | expectedBraceOrBracket
  | peekFailed (e : SkipErr)
  | missingId (bytes : List Nat)
  | expectedCommaOrBracket
deriving DecidableEq, Repr

/-- One array element: its verbatim byte range and its parsed id,
mirroring `struct Score { bytes: Bytes, id: u64 }`. -/
structure Score where
  bytes : List Nat
  id : Nat
deriving DecidableEq, Repr

/-- Models `Score::only_id`: an id-only score with an empty byte range
(`Bytes::new()`). -/
def Score.only_id (id : Nat) : Score := ⟨[], id⟩

/-- Models `impl PartialEq for Score`: equality compares only `id`. -/
def Score.beqScore (a b : Score) : Bool := a.id == b.id

/-- Models `impl Ord for Score`: `self.id.cmp(&other.id)`. -/
def Score.cmpScore (a b : Score) : Ordering := compare a.id b.id

/-- Models `impl PartialOrd for Score`: `Some(self.cmp(other))`. -/
def Score.optCmpScore (a b : Score) : Option Ordering := some (Score.cmpScore a b)

/-- Outcome of a deserializer call: `Ok(())` with the final collection,
an error, or a Rust panic (`crash`). -/
inductive DeResult where
  | ok (scores : List Score)
  | err (e : DeError)
  | crash
deriving DecidableEq, Repr

/-- The `BTreeSet<Score>` is modelled as a strictly-ascending (by the `Ord`
instance, i.e. by `id`) list. `BTreeSet::insert` keeps the already-present
element and drops the new one when an equal element exists. -/
def insertScore (s : Score) : List Score → List Score
  | [] => [s]
  | x :: xs =>
    match Score.cmpScore s x with
    | .lt => s :: x :: xs
    | .eq => x :: xs
    | .gt => x :: insertScore s xs

/-- Byte check used by `u8::is_ascii_digit`. -/
def isDigitByte (b : Nat) : Bool := 48 ≤ b && b ≤ 57

/-- Helper for `skip_whitespace_until`: walk the bytes, skipping ASCII
spaces, returning the index (offset by `k`) of the first byte satisfying
the predicate, an `unexpectedChar` error on the first non-space byte that
fails it, or `neverMet` when the bytes run out. -/
def skipAux (p : Nat → Bool) : List Nat → Nat → Except SkipErr Nat
  | [], _ => .error .neverMet
  | b :: rest, k =>
    if b == 32 then skipAux p rest (k + 1)
    else if p b then .ok k
    else .error (.unexpectedChar b)

/-- Models `Deserializer::skip_whitespace_until`. -/
def skip_whitespace_until (bytes : List Nat) (p : Nat → Bool) : Except SkipErr Nat :=
  skipAux p bytes 0

/-- The constant `2^64`: u64 arithmetic wraps modulo this. -/
def U64MOD : Nat := 2 ^ 64

/-- Models `Deserializer::peek_u64`: skip spaces until a digit (failing
otherwise), then fold the maximal digit run with `n * 10 + (byte & 0xF)`
in u64 arithmetic (wrapping modulo `2^64`). -/
def peek_u64 (bytes : List Nat) : Except SkipErr Nat :=
  match skip_whitespace_until bytes isDigitByte with
  | .error e => .error e
  | .ok start =>
    .ok (((bytes.drop start).takeWhile isDigitByte).foldl
      (fun n b => (n * 10 + b % 16) % U64MOD) 0)

/-- Boolean prefix test on byte lists. -/
def listPrefix : List Nat → List Nat → Bool
  | [], _ => true
  | _ :: _, [] => false
  | p :: ps, h :: hs => p == h && listPrefix ps hs

/-- Models `memmem::find`: index of the first occurrence of `pat` in the
haystack. -/
def memFind (pat : List Nat) : List Nat → Option Nat
  | [] => if listPrefix pat [] then some 0 else none
  | h :: hs =>
    if listPrefix pat (h :: hs) then some 0
    else (memFind pat hs).map (fun j => j + 1)

/-- The byte literal `br#""scores":"#`. -/
def scoresMarker : List Nat := [34, 115, 99, 111, 114, 101, 115, 34, 58]

/-- The byte literal `br#""id":"#`. -/
def idMarker : List Nat := [34, 105, 100, 34, 58]

/-- Models `memchr::memchr2_iter` on braces: positions of brace bytes. -/
def bracePositions (l : List Nat) : List Nat :=
  (l.enum.filter (fun p => p.2 == 123 || p.2 == 125)).map (fun p => p.1)

/-- Scanner loop state: `init`, `prev_depth`, `prev_idx`, `id` plus the
collection being filled. -/
structure ScanState where
  init : Nat
  prevDepth : Int
  prevIdx : Nat
  id : Option Nat
  scores : List Score
deriving DecidableEq, Repr

/-- Outcome of one loop iteration: continue with a new state, or leave
the loop with a final result (error, crash, or `break`/`return`). -/
inductive StepOut where
  | next (st : ScanState)
  | halt (r : DeResult)
deriving DecidableEq, Repr

/-- The slice `self.bytes[self.idx + prev_idx..self.idx + i]`: the current depth-1
gap searched for the id marker. -/
def gapSlice (bytes : List Nat) (idx prevIdx i : Nat) : List Nat :=
  (bytes.drop (idx + prevIdx)).take (i - prevIdx)

/-- The slice `self.bytes.slice(self.idx + init..=self.idx + i)`: the element's
verbatim bytes, inclusive of both braces. -/
def eltSlice (bytes : List Nat) (idx init i : Nat) : List Nat :=
  (bytes.drop (idx + init)).take (i - init + 1)

/-- New depth after a brace byte: `{` adds one, otherwise (`}`)
subtracts one. -/
def newDepth (d : Int) (b : Nat) : Int := if b == 123 then d + 1 else d - 1

/-- The identifier-capture rule (lines 82-93 of the source): when no id
has been captured and the previous depth is exactly 1, search the gap
`[prev_idx, i)` for `"id":` and parse the following digits. -/
def searchId (bytes : List Nat) (idx prevIdx i : Nat) (prevDepth : Int)
    (id : Option Nat) : Except SkipErr (Option Nat) :=
  if id.isNone && prevDepth == 1 then
    match memFind idMarker (gapSlice bytes idx prevIdx i) with
    | none => .ok id
    | some idIdx =>
      match peek_u64 ((gapSlice bytes idx prevIdx i).drop (idIdx + idMarker.length)) with
      | .error e => .error e
      | .ok n => .ok (some n)
  else .ok id

/-- One iteration of the `for i in parentheses` loop at brace position
`i` (relative to `idx`). -/
def scanStep (bytes : List Nat) (idx i : Nat) (st : ScanState) : StepOut :=
  match bytes.get? (idx + i) with
  | none => .halt .crash
  | some b =>
    if b == 123 || b == 125 then
      match searchId bytes idx st.prevIdx i st.prevDepth st.id with
      | .error e => .halt (.err (.peekFailed e))
      | .ok id' =>
        if newDepth st.prevDepth b == 1 then
          .next ⟨if st.prevDepth == 0 then i else st.init, newDepth st.prevDepth b, i, id', st.scores⟩
        else if newDepth st.prevDepth b == 0 then
          match id' with
          | none => .halt (.err (.missingId (eltSlice bytes idx st.init i)))
          | some n =>
            match bytes.get? (idx + i + 1) with
            | none => .halt .crash
            | some c =>
              if c == 44 then
                .next ⟨st.init, newDepth st.prevDepth b, st.prevIdx, none,
                  insertScore ⟨eltSlice bytes idx st.init i, n⟩ st.scores⟩
              else if c == 93 then
                .halt (.ok (insertScore ⟨eltSlice bytes idx st.init i, n⟩ st.scores))
              else .halt (.err .expectedCommaOrBracket)
        else .next ⟨st.init, newDepth st.prevDepth b, st.prevIdx, id', st.scores⟩
    else .halt .crash

/-- The `for i in parentheses` loop: when the brace positions run out the
loop falls through to `Ok(())` with the collection as filled so far. -/
def scanLoop (bytes : List Nat) (idx : Nat) : List Nat → ScanState → DeResult
  | [], st => .ok st.scores
  | i :: rest, st =>
    match scanStep bytes idx i st with
    | .next st' => scanLoop bytes idx rest st'
    | .halt r => r

/-- Models `Deserializer::deserialize_scores`, starting with the cursor at
`idx0` (just past the `"scores":` marker). -/
def deserialize_scores (bytes : List Nat) (idx0 : Nat) (scores : List Score) : DeResult :=
  match skip_whitespace_until (bytes.drop idx0) (fun b => b == 91) with
  | .error e => .err (.skipErr e)
  | .ok start =>
    match bytes.get? (idx0 + start + 1) with
    | none => .crash
    | some b =>
      if b == 123 then
        scanLoop bytes (idx0 + start + 1)
          (bracePositions (bytes.drop (idx0 + start + 1))).tail ⟨0, 1, 0, none, scores⟩
      else if b == 93 then .ok scores
      else .err .expectedBraceOrBracket

/-- Models `Deserializer::deserialize`: find the `"scores":` marker anywhere in
the buffer (else `Missing scores`), position the cursor right after it and
run the structural walk. -/
def deserialize (bytes : List Nat) (scores : List Score) : DeResult :=
  match memFind scoresMarker bytes with
  | none => .err .missingScores
  | some start => deserialize_scores bytes (start + scoresMarker.length) scores

/-- ASCII bytes of a string literal. -/
def toBytes (s : String) : List Nat := s.data.map Char.toNat

/-- The collection invariant: strictly ascending ids (hence also
unique ids). -/
def sortedScores (l : List Score) : Prop := List.Pairwise (fun a b => a.id < b.id) l

/-- Value of a digit run read in exact (unbounded) arithmetic. -/
def digitsVal (ds : List Nat) : Nat := ds.foldl (fun n d => n * 10 + (d - 48)) 0

/-- The test-property input from the spec, without internal whitespace. -/
def c1Input : List Nat :=
  toBytes "\x7b\"scores\":[\x7b\"id\":123\x7d,\x7b\"id\":456,\"user\":\x7b\"id\":2\x7d\x7d,\x7b\"user\":\x7b\"id\":2\x7d,\"id\":789\x7d],\"cursor\":\x7b\"id\":789\x7d\x7d"

/-- First array entry of `c1Input`, verbatim. -/
def c1Elt1 : List Nat := toBytes "\x7b\"id\":123\x7d"

/-- Second array entry of `c1Input`, verbatim. -/
def c1Elt2 : List Nat := toBytes "\x7b\"id\":456,\"user\":\x7b\"id\":2\x7d\x7d"

/-- Third array entry of `c1Input`, verbatim. -/
def c1Elt3 : List Nat := toBytes "\x7b\"user\":\x7b\"id\":2\x7d,\"id\":789\x7d"

end RosuScores


namespace RosuScores

/-- Claim C1: on the spec's test input, deserialization succeeds and the
collection holds exactly the three elements with ids 123, 456, 789 in
ascending order, each carrying the verbatim bytes of its array entry from
opening brace to matching closing brace inclusive; the id 2 inside the
nested `user` sub-object never overrides the element's own id, whether
the element's id field comes before or after the sub-object. -/
theorem c1_scan_exact :
    deserialize c1Input [] =
      .ok [⟨c1Elt1, 123⟩, ⟨c1Elt2, 456⟩, ⟨c1Elt3, 789⟩] := by
  decide

/-- Counterexample to claim C2 as stated: the input
`{"scores":[{"id":1` ends mid-element (its braces are unbalanced), yet
deserialization reports success, not an error. -/
theorem c2_unbalanced_succeeds :
    deserialize (toBytes "\x7b\"scores\":[\x7b\"id\":1") [] = .ok [] := by
  decide

/-- Claim C2 (amended): when the brace positions are exhausted while the
scanner is still inside an element (depth not back to 0), the loop simply
falls through and reports success with the collection as filled so far;
end of input mid-element is not an error. -/
theorem c2_exhausted_braces_yield_ok :
    ∀ (bytes : List Nat) (idx : Nat) (st : ScanState), st.prevDepth ≠ 0 →
      scanLoop bytes idx [] st = .ok st.scores := by
  intro bytes idx st _h
  rfl

/-- Witness for `c2_exhausted_braces_yield_ok` at a concrete state. -/
theorem c2_exhausted_braces_yield_ok_witness :
    scanLoop [] 0 [] ⟨0, 1, 0, none, []⟩ = .ok [] :=
  c2_exhausted_braces_yield_ok [] 0 ⟨0, 1, 0, none, []⟩ (by decide)

/-- Claim C9: score equality holds iff the ids are equal, ordering is the
ordering of the ids regardless of byte content, and the id-only score is
equal to and ordered identically with any score of the same id and
arbitrary payload. -/
theorem c9_identity_by_id_only :
    ∀ (a b c : Score) (bs : List Nat) (n : Nat),
      (Score.beqScore a b = true ↔ a.id = b.id)
      ∧ Score.cmpScore a b = compare a.id b.id
      ∧ Score.optCmpScore a b = some (compare a.id b.id)
      ∧ Score.beqScore (Score.only_id n) ⟨bs, n⟩ = true
      ∧ Score.cmpScore (Score.only_id n) c = Score.cmpScore ⟨bs, n⟩ c
      ∧ Score.cmpScore c (Score.only_id n) = Score.cmpScore c ⟨bs, n⟩ := by
  intro a b c bs n
  refine ⟨?_, rfl, rfl, ?_, rfl, rfl⟩
  · simp [Score.beqScore]
  · simp [Score.beqScore, Score.only_id]

/-- Claim C10 (refuted by the code): inputs that end exactly at the
array's opening bracket, or whose final byte is an element's closing
brace, make the deserializer read out of bounds (a Rust panic), modelled
as `crash`. -/
theorem c10_truncated_input_crashes :
    deserialize (toBytes "\x7b\"scores\":[") [] = .crash
    ∧ deserialize (toBytes "\x7b\"scores\":[\x7b\"id\":1\x7d") [] = .crash := by
  decide

end RosuScores

namespace RosuScores

theorem memFind_spec (pat : List Nat) :
    ∀ (hay : List Nat) (i : Nat), memFind pat hay = some i →
      listPrefix pat (List.drop i hay) = true
      ∧ ∀ j, j < i → listPrefix pat (List.drop j hay) = false := by
  intro hay
  induction hay with
  | nil =>
    intro i h
    rw [memFind] at h
    split at h
    · next hp =>
      cases h
      exact ⟨hp, fun j hj => absurd hj (Nat.not_lt_zero j)⟩
    · cases h
  | cons hd tl ih =>
    intro i h
    rw [memFind] at h
    split at h
    · next hp =>
      cases h
      exact ⟨hp, fun j hj => absurd hj (Nat.not_lt_zero j)⟩
    · next hp =>
      cases hm : memFind pat tl with
      | none => rw [hm] at h; cases h
      | some i0 =>
        rw [hm] at h
        simp only [Option.map_some'] at h
        injection h with h
        subst h
        obtain ⟨h1, h2⟩ := ih i0 hm
        refine ⟨h1, fun j hj => ?_⟩
        cases j with
        | zero =>
          simpa using Bool.eq_false_iff.mpr hp
        | succ k => exact h2 k (Nat.lt_of_succ_lt_succ hj)

/-- Claim C5: when the `"scores":` marker is absent the deserializer fails
with the missing-array-key error before any structural walk; when present,
the structural walk starts with the cursor immediately after the first
occurrence of the marker. -/
theorem c5_array_key_location :
    ∀ (bytes : List Nat) (scores : List Score),
      (memFind scoresMarker bytes = none →
        deserialize bytes scores = .err .missingScores)
      ∧ ∀ start, memFind scoresMarker bytes = some start →
          deserialize bytes scores =
            deserialize_scores bytes (start + scoresMarker.length) scores
          ∧ listPrefix scoresMarker (List.drop start bytes) = true
          ∧ ∀ j, j < start → listPrefix scoresMarker (List.drop j bytes) = false := by
  intro bytes scores
  constructor
  · intro h
    rw [deserialize, h]
  · intro start h
    refine ⟨?_, (memFind_spec scoresMarker bytes start h).1,
      (memFind_spec scoresMarker bytes start h).2⟩
    rw [deserialize, h]

/-- Witness for `c5_array_key_location`: a buffer without the marker
errors out, and on `c1Input` the marker is found at index 1. -/
theorem c5_array_key_location_witness :
    deserialize (toBytes "hello") [] = .err .missingScores
    ∧ deserialize c1Input [] = deserialize_scores c1Input (1 + scoresMarker.length) [] :=
  ⟨(c5_array_key_location (toBytes "hello") []).1 (by decide),
    (((c5_array_key_location c1Input []).2 1 (by decide))).1⟩

end RosuScores

namespace RosuScores

/-- Claim C6: after locating the array and its opening bracket, the very
next byte decides: a closing bracket means success with the collection
unchanged, an opening brace starts element scanning, and anything else is
the expected-brace-or-bracket error. -/
theorem c6_byte_after_opening_bracket :
    ∀ (bytes : List Nat) (scores : List Score) (m start : Nat),
      memFind scoresMarker bytes = some m →
      skip_whitespace_until (List.drop (m + scoresMarker.length) bytes) (fun b => b == 91) = .ok start →
      (bytes.get? (m + scoresMarker.length + start + 1) = some 93 →
        deserialize bytes scores = .ok scores)
      ∧ (bytes.get? (m + scoresMarker.length + start + 1) = some 123 →
        deserialize bytes scores =
          scanLoop bytes (m + scoresMarker.length + start + 1)
            (bracePositions (List.drop (m + scoresMarker.length + start + 1) bytes)).tail
            ⟨0, 1, 0, none, scores⟩)
      ∧ (∀ b, bytes.get? (m + scoresMarker.length + start + 1) = some b →
          b ≠ 123 → b ≠ 93 →
          deserialize bytes scores = .err .expectedBraceOrBracket) := by
  intro bytes scores m start hm hskip
  refine ⟨?_, ?_, ?_⟩
  · intro hb
    simp only [deserialize, hm, deserialize_scores, hskip, hb]
    rfl
  · intro hb
    simp only [deserialize, hm, deserialize_scores, hskip, hb]
    rfl
  · intro b hb hb1 hb2
    simp only [deserialize, hm, deserialize_scores, hskip, hb]
    simp [hb1, hb2]

end RosuScores

namespace RosuScores

/-- Witness for `c6_byte_after_opening_bracket`: an empty array yields the
unchanged (empty) collection, and a stray byte after the bracket errors. -/
theorem c6_byte_after_opening_bracket_witness :
    deserialize (toBytes "\x7b\"scores\":[]\x7d") [] = .ok []
    ∧ deserialize (toBytes "\x7b\"scores\":[z") [] = .err .expectedBraceOrBracket :=
  ⟨(c6_byte_after_opening_bracket (toBytes "\x7b\"scores\":[]\x7d") [] 1 0 rfl rfl).1 rfl,
    (c6_byte_after_opening_bracket (toBytes "\x7b\"scores\":[z") [] 1 0 rfl rfl).2.2
      122 rfl (by decide) (by decide)⟩

/-- Claim C7: at an element's closing brace (depth 1 to 0, id already
captured), the byte immediately after decides: a comma continues the loop
on the remaining braces with the element inserted, a closing bracket ends
the scan successfully, and any other byte is the
expected-comma-or-bracket error. -/
theorem c7_separator_after_element :
    ∀ (bytes : List Nat) (idx i : Nat) (rest : List Nat)
      (init prevIdx n : Nat) (scores : List Score),
      bytes.get? (idx + i) = some 125 →
      (bytes.get? (idx + i + 1) = some 44 →
        scanLoop bytes idx (i :: rest) ⟨init, 1, prevIdx, some n, scores⟩ =
          scanLoop bytes idx rest ⟨init, 0, prevIdx, none,
            insertScore ⟨eltSlice bytes idx init i, n⟩ scores⟩)
      ∧ (bytes.get? (idx + i + 1) = some 93 →
        scanLoop bytes idx (i :: rest) ⟨init, 1, prevIdx, some n, scores⟩ =
          .ok (insertScore ⟨eltSlice bytes idx init i, n⟩ scores))
      ∧ (∀ c, bytes.get? (idx + i + 1) = some c → c ≠ 44 → c ≠ 93 →
          scanLoop bytes idx (i :: rest) ⟨init, 1, prevIdx, some n, scores⟩ =
            .err .expectedCommaOrBracket) := by
  intro bytes idx i rest init prevIdx n scores hget
  rw [List.get?_eq_getElem?] at hget
  refine ⟨?_, ?_, ?_⟩
  · intro hc
    rw [List.get?_eq_getElem?] at hc
    simp [scanLoop, scanStep, searchId, newDepth, hget, hc]
  · intro hc
    rw [List.get?_eq_getElem?] at hc
    simp [scanLoop, scanStep, searchId, newDepth, hget, hc]
  · intro c hc hc1 hc2
    rw [List.get?_eq_getElem?] at hc
    simp [scanLoop, scanStep, searchId, newDepth, hget, hc, hc1, hc2]

end RosuScores

namespace RosuScores

/-- Witness for `c7_separator_after_element`: a closing brace followed by
the array terminator ends the scan with the element inserted. -/
theorem c7_separator_after_element_witness :
    scanLoop (toBytes "\x7d]") 0 [0] ⟨0, 1, 0, some 5, []⟩ =
      .ok (insertScore ⟨eltSlice (toBytes "\x7d]") 0 0 0, 5⟩ []) :=
  (c7_separator_after_element (toBytes "\x7d]") 0 0 [] 0 0 5 [] rfl).2.1 rfl

/-- Claim C4: an element that closes (depth back to 0) while no id was
captured and whose final depth-1 gap contains no `"id":` marker makes the
scan fail with the missing-id error carrying the element's bytes; in
particular an element whose only id fields sit inside a nested sub-object
(like `\x7b"user":\x7b"id":2\x7d\x7d`) fails this way end to end. -/
theorem c4_missing_id :
    (∀ (bytes : List Nat) (idx i : Nat) (rest : List Nat)
      (init prevIdx : Nat) (scores : List Score),
      bytes.get? (idx + i) = some 125 →
      memFind idMarker (gapSlice bytes idx prevIdx i) = none →
      scanLoop bytes idx (i :: rest) ⟨init, 1, prevIdx, none, scores⟩ =
        .err (.missingId (eltSlice bytes idx init i)))
    ∧ deserialize (toBytes "\x7b\"scores\":[\x7b\"user\":\x7b\"id\":2\x7d\x7d]\x7d") [] =
        .err (.missingId (toBytes "\x7b\"user\":\x7b\"id\":2\x7d\x7d")) := by
  constructor
  · intro bytes idx i rest init prevIdx scores hget hfind
    rw [List.get?_eq_getElem?] at hget
    simp [scanLoop, scanStep, searchId, newDepth, hget, hfind]
  · decide

/-- Witness for `c4_missing_id`'s universally quantified part. -/
theorem c4_missing_id_witness :
    scanLoop (toBytes "\x7dx") 0 [0] ⟨0, 1, 0, none, []⟩ =
      .err (.missingId (eltSlice (toBytes "\x7dx") 0 0 0)) :=
  c4_missing_id.1 (toBytes "\x7dx") 0 0 [] 0 0 [] rfl rfl

end RosuScores

namespace RosuScores

theorem skipAux_spaces (p : Nat → Bool) :
    ∀ (sp rest : List Nat) (k : Nat), (∀ b ∈ sp, b = 32) →
      skipAux p (sp ++ rest) k = skipAux p rest (k + sp.length) := by
  intro sp
  induction sp with
  | nil => intro rest k _; simp
  | cons b sp' ih =>
    intro rest k hsp
    have hb : b = 32 := hsp b (List.mem_cons_self b sp')
    subst hb
    simp only [List.cons_append, skipAux, List.length_cons, List.append_eq]
    rw [if_pos (show ((32 : Nat) == 32) = true from rfl),
      ih rest (k + 1) (fun x hx => hsp x (List.mem_cons_of_mem _ hx))]
    congr 1
    omega

theorem mem_takeWhile_digit :
    ∀ (l : List Nat), ∀ x ∈ l.takeWhile isDigitByte, isDigitByte x = true := by
  intro l
  induction l with
  | nil => intro x hx; cases hx
  | cons a l ih =>
    intro x hx
    rw [List.takeWhile_cons] at hx
    by_cases ha : isDigitByte a = true
    · rw [if_pos ha] at hx
      rcases List.mem_cons.mp hx with h | h
      · rw [h]; exact ha
      · exact ih x h
    · rw [if_neg ha] at hx
      cases hx

theorem foldWrap_eq_mod :
    ∀ (ds : List Nat), (∀ d ∈ ds, isDigitByte d = true) → ∀ (acc : Nat),
      ds.foldl (fun n b => (n * 10 + b % 16) % U64MOD) (acc % U64MOD) =
        (ds.foldl (fun n d => n * 10 + (d - 48)) acc) % U64MOD := by
  intro ds
  induction ds with
  | nil => intro _ acc; rfl
  | cons d ds' ih =>
    intro hds acc
    have hd : isDigitByte d = true := hds d (List.mem_cons_self d ds')
    have hd' : 48 ≤ d ∧ d ≤ 57 := by
      simpa [isDigitByte] using hd
    have h16 : d % 16 = d - 48 := by omega
    have hmod : (acc % U64MOD * 10 + (d - 48)) % U64MOD =
        (acc * 10 + (d - 48)) % U64MOD :=
      ((Nat.mod_modEq acc U64MOD).mul_right 10).add_right (d - 48)
    simp only [List.foldl_cons, h16, hmod]
    exact ih (fun x hx => hds x (List.mem_cons_of_mem _ hx)) (acc * 10 + (d - 48))

/-- Claim C8: `peek_u64` first skips consecutive ASCII spaces, fails when
no decimal digit follows (end of input, or a non-space non-digit byte
first), and otherwise returns the value of the maximal leading digit run
accumulated as `value * 10 + digit`, modulo `2^64`. -/
theorem c8_peek_u64_spec :
    ∀ (sp rest : List Nat), (∀ b ∈ sp, b = 32) →
      (rest = [] → peek_u64 (sp ++ rest) = .error .neverMet)
      ∧ (∀ b rest', rest = b :: rest' → b ≠ 32 →
          (isDigitByte b = false →
            peek_u64 (sp ++ rest) = .error (.unexpectedChar b))
          ∧ (isDigitByte b = true →
            peek_u64 (sp ++ rest) =
              .ok (digitsVal (rest.takeWhile isDigitByte) % U64MOD))) := by
  intro sp rest hsp
  constructor
  · intro hrest
    subst hrest
    rw [peek_u64, skip_whitespace_until, skipAux_spaces isDigitByte sp [] 0 hsp]
    rfl
  · intro b rest' hrest hb
    subst hrest
    have hskip := skipAux_spaces isDigitByte sp (b :: rest') 0 hsp
    rw [Nat.zero_add] at hskip
    have hb32 : (b == 32) = false := by
      simp [hb]
    constructor
    · intro hdig
      rw [peek_u64, skip_whitespace_until, hskip, skipAux, if_neg (by simp [hb32]),
        if_neg (by simp [hdig])]
    · intro hdig
      have hpeek : peek_u64 (sp ++ b :: rest') =
          .ok ((((sp ++ b :: rest').drop sp.length).takeWhile isDigitByte).foldl
            (fun n b => (n * 10 + b % 16) % U64MOD) 0) := by
        rw [peek_u64, skip_whitespace_until, hskip, skipAux,
          if_neg (by simp [hb32]), if_pos hdig]
      have hdrop : (sp ++ b :: rest').drop sp.length = b :: rest' :=
        List.drop_left sp (b :: rest')
      rw [hpeek, hdrop]
      have h0 : (0 : Nat) = 0 % U64MOD := rfl
      rw [h0, foldWrap_eq_mod ((b :: rest').takeWhile isDigitByte)
        (mem_takeWhile_digit (b :: rest'))]
      rfl

/-- Witness for `c8_peek_u64_spec`: two leading spaces, then the digit run
`42` followed by a non-digit, parse to 42. -/
theorem c8_peek_u64_spec_witness :
    peek_u64 (toBytes "  42x") = .ok 42 :=
  ((c8_peek_u64_spec [32, 32] (toBytes "42x") (by decide)).2
    52 (toBytes "2x") rfl (by decide)).2 (by decide)

end RosuScores

namespace RosuScores

theorem mem_insertScore :
    ∀ (s y : Score) (l : List Score), y ∈ insertScore s l → y = s ∨ y ∈ l := by
  intro s y l
  induction l with
  | nil =>
    intro h
    exact Or.inl (List.mem_singleton.mp h)
  | cons x xs ih =>
    intro h
    rw [insertScore] at h
    rcases hc : Score.cmpScore s x with _ | _ | _ <;> rw [hc] at h
    · rcases List.mem_cons.mp h with h1 | h1
      · exact Or.inl h1
      · exact Or.inr h1
    · exact Or.inr h
    · rcases List.mem_cons.mp h with h1 | h1
      · exact Or.inr (h1 ▸ List.mem_cons_self x xs)
      · rcases ih h1 with h2 | h2
        · exact Or.inl h2
        · exact Or.inr (List.mem_cons_of_mem x h2)

theorem insertScore_sorted :
    ∀ (s : Score) (l : List Score), sortedScores l → sortedScores (insertScore s l) := by
  intro s l
  induction l with
  | nil =>
    intro _
    simp [insertScore, sortedScores]
  | cons x xs ih =>
    intro hl
    rw [sortedScores, List.pairwise_cons] at hl
    obtain ⟨hx, hxs⟩ := hl
    rw [insertScore]
    rcases hc : Score.cmpScore s x with _ | _ | _
    · rw [Score.cmpScore] at hc
      have hlt : s.id < x.id := compare_lt_iff_lt.mp hc
      rw [sortedScores, List.pairwise_cons]
      refine ⟨fun y hy => ?_, List.pairwise_cons.mpr ⟨hx, hxs⟩⟩
      rcases List.mem_cons.mp hy with h | h
      · rw [h]; exact hlt
      · exact hlt.trans (hx y h)
    · exact List.pairwise_cons.mpr ⟨hx, hxs⟩
    · rw [Score.cmpScore] at hc
      have hgt : x.id < s.id := compare_gt_iff_gt.mp hc
      rw [sortedScores, List.pairwise_cons]
      refine ⟨fun y hy => ?_, ih hxs⟩
      rcases mem_insertScore s y xs hy with h | h
      · rw [h]; exact hgt
      · exact hx y h

theorem insertScore_dup :
    ∀ (s : Score) (l : List Score), sortedScores l →
      (∃ x, x ∈ l ∧ x.id = s.id) → insertScore s l = l := by
  intro s l
  induction l with
  | nil =>
    intro _ h
    rcases h with ⟨x, hx, _⟩
    cases hx
  | cons y ys ih =>
    intro hl h
    rcases h with ⟨x, hx, hid⟩
    rw [sortedScores, List.pairwise_cons] at hl
    obtain ⟨hy, hys⟩ := hl
    rw [insertScore]
    rcases hc : Score.cmpScore s y with _ | _ | _
    · rw [Score.cmpScore] at hc
      have hlt : s.id < y.id := compare_lt_iff_lt.mp hc
      rcases List.mem_cons.mp hx with h1 | h1
      · rw [h1] at hid; omega
      · have := hy x h1; omega
    · rfl
    · rw [Score.cmpScore] at hc
      have hgt : y.id < s.id := compare_gt_iff_gt.mp hc
      rcases List.mem_cons.mp hx with h1 | h1
      · rw [h1] at hid; omega
      · rw [ih hys ⟨x, h1, hid⟩]

theorem scanStep_next_scores :
    ∀ (bytes : List Nat) (idx i : Nat) (st st' : ScanState),
      scanStep bytes idx i st = .next st' →
      st'.scores = st.scores ∨ ∃ s, st'.scores = insertScore s st.scores := by
  intro bytes idx i st st' h
  unfold scanStep at h
  repeat' split at h
  all_goals cases h
  all_goals first
    | exact Or.inl rfl
    | exact Or.inr ⟨_, rfl⟩

theorem scanStep_halt_ok_scores :
    ∀ (bytes : List Nat) (idx i : Nat) (st : ScanState) (s' : List Score),
      scanStep bytes idx i st = .halt (.ok s') →
      ∃ s, s' = insertScore s st.scores := by
  intro bytes idx i st s' h
  unfold scanStep at h
  repeat' split at h
  all_goals cases h
  all_goals exact ⟨_, rfl⟩

theorem scanLoop_sorted :
    ∀ (ps : List Nat) (bytes : List Nat) (idx : Nat) (st : ScanState) (s' : List Score),
      sortedScores st.scores → scanLoop bytes idx ps st = .ok s' → sortedScores s' := by
  intro ps
  induction ps with
  | nil =>
    intro bytes idx st s' hs h
    rw [scanLoop] at h
    cases h
    exact hs
  | cons i rest ih =>
    intro bytes idx st s' hs h
    rw [scanLoop] at h
    cases hstep : scanStep bytes idx i st with
    | next st2 =>
      rw [hstep] at h
      have hs2 : sortedScores st2.scores := by
        rcases scanStep_next_scores bytes idx i st st2 hstep with h1 | ⟨s, h1⟩
        · rw [h1]; exact hs
        · rw [h1]; exact insertScore_sorted s st.scores hs
      exact ih bytes idx st2 s' hs2 h
    | halt r =>
      rw [hstep] at h
      have h2 : r = DeResult.ok s' := h
      subst h2
      rcases scanStep_halt_ok_scores bytes idx i st s' hstep with ⟨s, h3⟩
      rw [h3]
      exact insertScore_sorted s st.scores hs

theorem deserialize_scores_ok_sorted :
    ∀ (bytes : List Nat) (idx0 : Nat) (scores s' : List Score),
      sortedScores scores → deserialize_scores bytes idx0 scores = .ok s' →
      sortedScores s' := by
  intro bytes idx0 scores s' hs h
  unfold deserialize_scores at h
  split at h
  · cases h
  · split at h
    · cases h
    · split at h
      · exact scanLoop_sorted _ _ _ _ _ hs h
      · split at h
        · cases h
          exact hs
        · cases h

/-- Claim C3: any successful scan started from a strictly-ascending
collection leaves the collection strictly ascending in id (hence with at
most one element per id, iterated in ascending id order); and inserting an
element whose id is already present discards the new element and keeps
the stored one unchanged. -/
theorem c3_unique_ascending_dedup :
    (∀ (bytes : List Nat) (scores s' : List Score),
      sortedScores scores → deserialize bytes scores = .ok s' → sortedScores s')
    ∧ (∀ (s : Score) (l : List Score), sortedScores l →
        (∃ x, x ∈ l ∧ x.id = s.id) → insertScore s l = l) := by
  constructor
  · intro bytes scores s' hs h
    unfold deserialize at h
    split at h
    · cases h
    · exact deserialize_scores_ok_sorted _ _ _ _ hs h
  · exact insertScore_dup

/-- Witness for `c3_unique_ascending_dedup`: the scan of `c1Input` from the
empty collection yields a strictly ascending collection. -/
theorem c3_unique_ascending_dedup_witness :
    sortedScores [⟨c1Elt1, 123⟩, ⟨c1Elt2, 456⟩, ⟨c1Elt3, 789⟩] :=
  c3_unique_ascending_dedup.1 c1Input [] _ List.Pairwise.nil (by decide)

end RosuScores
